import Mathlib

/-!
Shallow embedding of src/ForumMediaAnalyzer/MediaAnalyzer.py.

Two layers, both translated from the source:

* A pixel-level layer modelling the NumPy semantics that the static
  helpers scale_images, mse, img_hash and the array-truthiness guard of
  run() depend on.  Grayscale images are matrices of rationals
  (NPImage); Python floats are modelled as rationals; NumPy broadcasting
  failures and ambiguous array-truthiness both raise ValueError, modelled
  in an Except monad.  The external numeric primitives (cv2.resize,
  skimage structural_similarity, imagehash hashing) are black-box
  parameters, as the specification declares them.

* A record-level layer modelling the persistent state and the control
  flow of run() (pagination, save-all versus resume routing, and the
  corpus scan of lines 244-287).  The per-pair image pipeline (decode,
  scaling, guard, scoring) is abstracted as a Pipeline oracle; its
  pixel-level defects are analysed separately in the first layer.

Field-name note: the source spells the repost link "RepostOff" (the
specification calls it RepostOf); the Lean fields keep the source
spelling.
-/

namespace ForumMediaAnalyzer

/-- Python exceptions relevant to run(): the three exception types its
handlers (lines 294-299) catch, the ValueError NumPy raises on ambiguous
array truthiness or failed broadcasting, and the AttributeError raised
when a None candidate image reaches image_one.shape at line 77. -/
inductive PyErr where
  | valueError
  | attributeError
  | requestException
  | mongoTimeout
  | jsonDecode
deriving DecidableEq

/-- A decoded grayscale image: a matrix of pixel values.  Pixel values
and all derived float quantities are modelled as rationals. -/
structure NPImage where
  rows : List (List ℚ)
deriving DecidableEq

/-- image.shape of a 2-D array: (height, width). -/
def npShape (a : NPImage) : ℕ × ℕ := (a.rows.length, (a.rows.headD []).length)

/-- image[i]: the i-th pixel row (NumPy integer indexing on axis 0). -/
def npRow (a : NPImage) (i : ℕ) : List ℚ := a.rows.getD i []

/-- Total number of elements of the array. -/
def npSize (a : NPImage) : ℕ := a.rows.flatten.length

/-- Elementwise binary operation on 1-D arrays with NumPy broadcasting:
equal lengths operate pointwise, a length-1 operand is broadcast, any
other length mismatch raises ValueError. -/
def bcastWith {α : Type} (f : ℚ → ℚ → α) (xs ys : List ℚ) : Except PyErr (List α) :=
  if xs.length = ys.length then .ok (List.zipWith f xs ys)
  else if xs.length = 1 then .ok (ys.map (fun y => f (xs.headD 0) y))
  else if ys.length = 1 then .ok (xs.map (fun x => f x (ys.headD 0)))
  else .error .valueError

/-- Truthiness of a 1-D boolean array (an `if` on an array comparison):
defined only for a single element, ambiguous otherwise. -/
def arrTruthy (xs : List Bool) : Except PyErr Bool :=
  match xs with
  | [b] => .ok b
  | _ => .error .valueError

/-- Truthiness of a whole image array (the `if not im` guard at
line 249): defined only when the array has exactly one element. -/
def npTruthy (a : NPImage) : Except PyErr Bool :=
  match a.rows.flatten with
  | [x] => .ok (decide (x ≠ 0))
  | _ => .error .valueError

/-- sum(image[:2]) with the Python builtin sum: the elementwise sum of
the first two pixel rows.  The scalar 0 returned for an empty array is
modelled as a length-1 array, which broadcasts identically. -/
def sumFirstTwo (a : NPImage) : Except PyErr (List ℚ) :=
  match a.rows with
  | [] => .ok [0]
  | [r] => .ok r
  | r0 :: r1 :: _ => bcastWith (fun x y => x + y) r0 r1

/-- _scale_images (lines 72-95), translated statement by statement.
resize abstracts cv2.resize (a black-box primitive); it receives the
target (height, width).  The source operates on the pixel rows
image_one[0], image_one[1] and image_one[:2] - not on image_one.shape -
which is exactly what the comparison with the specification turns on.
NumPy division by a zero pixel (inf/nan, no exception) is not modelled;
no theorem below evaluates this definition on an input with a zero
divisor row. -/
def scale_images (resize : NPImage → ℕ × ℕ → NPImage) (i1 i2 : NPImage) (tol : ℚ) :
    Except PyErr (Option (NPImage × NPImage)) :=
  if npShape i1 = npShape i2 then .ok (some (i1, i2))
  else do
    let r1 ← bcastWith (fun x y => x / y) (npRow i1 0) (npRow i1 1)
    let r2 ← bcastWith (fun x y => x / y) (npRow i2 0) (npRow i2 1)
    let d ← bcastWith (fun x y => x - y) r1 r2
    let c ← arrTruthy (d.map (fun x => decide (tol ≤ |x|)))
    if c then .ok none
    else do
      let s1 ← sumFirstTwo i1
      let s2 ← sumFirstTwo i2
      let cmp ← bcastWith (fun x y => decide (y < x)) s1 s2
      let g ← arrTruthy cmp
      if g then .ok (some (resize i1 (npShape i2), i2))
      else .ok (some (i1, resize i2 (npShape i1)))

/-- _mse (lines 97-107): sum of squared pixel differences divided by
height times width of the first image. -/
def mseVal (i1 i2 : NPImage) : ℚ :=
  (List.zipWith (fun r s => (List.zipWith (fun x y => (x - y) ^ 2) r s).sum) i1.rows i2.rows).sum
    / (((npShape i1).1 : ℚ) * ((npShape i1).2 : ℚ))

/-- The clamp arithmetic of _img_hash (lines 109-122): with s the hash
difference minus the cutoff, return (abs(s) + s) / 2; the numerator is
even, so Python float division followed by int() is exact. -/
def imgHashClamp (d c : ℤ) : ℤ := (|d - c| + (d - c)) / 2

/-- _img_hash with the hashing primitive (imagehash average_hash and its
difference operator, which returns the non-negative hash distance
h1 - h2) as a black-box parameter. -/
def img_hash (hdiff : NPImage → NPImage → ℤ) (i1 i2 : NPImage) (cutoff : ℤ) : ℤ :=
  imgHashClamp (hdiff i1 i2) cutoff

/-- One corpus comparison of run() at the image level (lines 248-256):
scale the pair, evaluate the `if not im` guard, then produce the
(mse, ssim, hash) triple consumed by the classification at line 263.
ssim abstracts skimage structural_similarity. -/
def compareImages (resize : NPImage → ℕ × ℕ → NPImage) (ssim : NPImage → NPImage → ℚ)
    (hdiff : NPImage → NPImage → ℤ) (im im0 : NPImage) :
    Except PyErr (Option (ℚ × ℚ × ℤ)) :=
  match scale_images resize im im0 (mkRat 1 50) with
  | .error e => .error e
  | .ok none => .ok none
  | .ok (some (a, b)) =>
    match npTruthy a with
    | .error e => .error e
    | .ok t =>
      if t = false then .ok none
      else .ok (some (mseVal a b, ssim a b, img_hash hdiff a b 10))

/-- The error outcome of run(): the single categorized domain error
raised by the handlers at lines 294-299, or an exception none of them
catches. -/
inductive RunErr where
  | analyzeConditionsNotMet
  | uncaught (e : PyErr)
deriving DecidableEq

/-- Which exception types the handlers of run() catch. -/
def caughtByRun (e : PyErr) : Bool :=
  match e with
  | .requestException => true
  | .mongoTimeout => true
  | .jsonDecode => true
  | .valueError => false
  | .attributeError => false

/-- The except clauses of run() (lines 294-299): wrap a caught cause
into AnalyzeConditionsNotMetException, let anything else escape. -/
def runCatch {α : Type} (x : Except PyErr α) : Except RunErr α :=
  match x with
  | .ok a => .ok a
  | .error e => if caughtByRun e then .error .analyzeConditionsNotMet else .error (.uncaught e)

/-- A repost-evidence entry (lines 268-274). -/
structure Evidence where
  articleId : String
  mse : ℚ
  ssim : ℚ
  hs : ℤ
  certainty : ℕ
deriving DecidableEq

/-- A persisted Post record.  OrderNum is set only by the bulk path;
reposts distinguishes a stored list from the None written on repost
records. -/
structure Record where
  articleId : String
  orderNum : Option ℕ
  isOriginal : Bool
  repostOff : Option ℕ
  reposts : Option (List Evidence)
deriving DecidableEq

/-- Append one evidence entry to a Reposts value (line 268); a None
Reposts stays None (the source would raise there, but the append is only
reached for records whose IsOriginal is true, which carry a list). -/
def appendEv (r : Record) (ev : Evidence) : Record :=
  { r with reposts := r.reposts.map (fun l => l ++ [ev]) }

/-- The classification decision at lines 263-284 for one corpus entry,
given the three scores: on the triple guard (hash score 0, ssim at
least 0.75, not mse at least 2000, and the target original) turn the
candidate draft into a repost of the target and append evidence to the
target; in every other case leave both unchanged. -/
def classifyStep (md : Record) (ppId : ℕ) (pp : Record) (m s : ℚ) (h : ℤ) :
    Record × Option Record :=
  if h = 0 then
    if mkRat 3 4 ≤ s then
      if ¬ (2000 : ℚ) ≤ m ∧ pp.isOriginal = true then
        ({ md with isOriginal := false, repostOff := some ppId, reposts := none },
         some (appendEv pp ⟨md.articleId, m, s, h, 1⟩))
      else (md, none)
    else (md, none)
  else (md, none)

/- Helper lemmas for the pixel layer. -/

theorem imgHashClamp_eq_max (d c : ℤ) : imgHashClamp d c = max 0 (d - c) := by
  unfold imgHashClamp
  rcases le_total 0 (d - c) with h | h
  · rw [abs_of_nonneg h]
    omega
  · rw [abs_of_nonpos h]
    omega

theorem npTruthy_error (a : NPImage) (h : 1 < npSize a) : npTruthy a = .error .valueError := by
  unfold npTruthy
  unfold npSize at h
  rcases hj : a.rows.flatten with _ | ⟨x, _ | ⟨y, t⟩⟩
  · simp [hj] at h
  · simp [hj] at h
  · rfl

/-- C7: the specification describes _scale_images as comparing
shape-derived aspect quotients and downscaling the larger image; the
code instead divides pixel row 0 by pixel row 1.  On a 2x2 all-ones
image against a 3x3 all-ones image the aspect quotients are equal
(1 versus 1, difference 0 below the 0.02 tolerance) so the claim
requires the 3x3 image to be downscaled and the pair returned; the code
instead broadcasts a length-2 row quotient against a length-3 one and
raises ValueError, whatever resize primitive is supplied. -/
theorem c7_scale_raises (resize : NPImage → ℕ × ℕ → NPImage) :
    scale_images resize ⟨[[1, 1], [1, 1]]⟩ ⟨[[1, 1, 1], [1, 1, 1], [1, 1, 1]]⟩ (mkRat 1 50)
      = .error .valueError := by
  rfl

/-- C4: a pair that cannot be scale-normalized (2x2 all-ones candidate
against a 2x3 all-ones target, aspect difference 1/3 at least the 0.02
tolerance) is claimed to be skipped without a throw and run() is claimed
to raise only the categorized error; instead the comparison raises a
ValueError (broadcast mismatch inside _scale_images) that none of the
run() handlers catches, so an uncategorized exception escapes. -/
theorem c4_uncaught_value_error (resize : NPImage → ℕ × ℕ → NPImage)
    (ssim : NPImage → NPImage → ℚ) (hdiff : NPImage → NPImage → ℤ) :
    runCatch (compareImages resize ssim hdiff ⟨[[1, 1], [1, 1]]⟩ ⟨[[1, 1, 1], [1, 1, 1]]⟩)
      = .error (.uncaught .valueError) := by
  rfl

/-- C10: whenever _scale_images succeeds on a pair and hands back an
array with more than one element, the `if not im` guard at line 249
evaluates array truthiness, which raises ValueError; the ValueError is
caught by none of run()'s handlers, so the mse, ssim and hash stages
after a successful scaling are unreachable and run() propagates an
uncategorized exception instead of classifying the candidate. -/
theorem c10_truthiness_guard (resize : NPImage → ℕ × ℕ → NPImage)
    (ssim : NPImage → NPImage → ℚ) (hdiff : NPImage → NPImage → ℤ)
    (im im0 a b : NPImage)
    (hsc : scale_images resize im im0 (mkRat 1 50) = .ok (some (a, b)))
    (hsize : 1 < npSize a) :
    runCatch (compareImages resize ssim hdiff im im0) = .error (.uncaught .valueError) := by
  unfold compareImages
  rw [hsc]
  show runCatch
      (match npTruthy a with
      | .error e => .error e
      | .ok t =>
        if t = false then .ok none
        else .ok (some (mseVal a b, ssim a b, img_hash hdiff a b 10)))
    = .error (.uncaught .valueError)
  rw [npTruthy_error a hsize]
  rfl

theorem c10_witness :
    scale_images (fun x _ => x) (⟨[[1, 1], [1, 1]]⟩ : NPImage) ⟨[[1, 1], [1, 1]]⟩ (mkRat 1 50)
        = .ok (some (⟨[[1, 1], [1, 1]]⟩, ⟨[[1, 1], [1, 1]]⟩))
      ∧ runCatch (compareImages (fun x _ => x) (fun _ _ => 0) (fun _ _ => 0)
          (⟨[[1, 1], [1, 1]]⟩ : NPImage) ⟨[[1, 1], [1, 1]]⟩)
        = .error (.uncaught .valueError) :=
  ⟨by rfl,
   c10_truthiness_guard (fun x _ => x) (fun _ _ => 0) (fun _ _ => 0)
     ⟨[[1, 1], [1, 1]]⟩ ⟨[[1, 1], [1, 1]]⟩ ⟨[[1, 1], [1, 1]]⟩ ⟨[[1, 1], [1, 1]]⟩
     (by rfl) (by decide)⟩

/-- C8: the hash-distance computation equals max(0, d - cutoff) for the
non-negative hash difference d, is never negative, is zero exactly when
the difference is at most the cutoff, and any non-zero hash score makes
the classification at line 263 leave both records unchanged. -/
theorem c8_hash_clamp (h1 h2 c : ℤ) :
    imgHashClamp |h1 - h2| c = max 0 (|h1 - h2| - c)
    ∧ 0 ≤ imgHashClamp |h1 - h2| c
    ∧ (imgHashClamp |h1 - h2| c = 0 ↔ |h1 - h2| ≤ c)
    ∧ ∀ (md pp : Record) (ppId : ℕ) (m s : ℚ) (h : ℤ),
        h ≠ 0 → classifyStep md ppId pp m s h = (md, none) := by
  refine ⟨imgHashClamp_eq_max _ _, ?_, ?_, ?_⟩
  · rw [imgHashClamp_eq_max]
    exact le_max_left _ _
  · rw [imgHashClamp_eq_max]
    constructor
    · intro h
      omega
    · intro h
      omega
  · intro md pp ppId m s h hne
    unfold classifyStep
    rw [if_neg hne]

theorem c8_witness :
    imgHashClamp |(7 : ℤ) - 3| 10 = max 0 (|(7 : ℤ) - 3| - 10)
    ∧ classifyStep ⟨"c", none, true, none, some []⟩ 0 ⟨"t", none, true, none, some []⟩ 0 1 5
        = (⟨"c", none, true, none, some []⟩, none) :=
  ⟨(c8_hash_clamp 7 3 10).1,
   (c8_hash_clamp 7 3 10).2.2.2 ⟨"c", none, true, none, some []⟩
     ⟨"t", none, true, none, some []⟩ 0 0 1 5 (by decide)⟩

/-- C1: for a comparison whose scores pass every stage - clamped hash
distance 0, structural similarity at least 0.75, mse strictly below
2000 - against a target currently marked original, the candidate draft
becomes a repost of that target (IsOriginal false, RepostOff the target
id) and the target gains exactly the one appended evidence entry. -/
theorem c1_repost_classification (md pp : Record) (ppId : ℕ) (m s : ℚ) (h : ℤ)
    (l : List Evidence)
    (hh : h = 0) (hss : mkRat 3 4 ≤ s) (hmse : m < 2000)
    (horig : pp.isOriginal = true) (hrep : pp.reposts = some l) :
    classifyStep md ppId pp m s h
      = ({ md with isOriginal := false, repostOff := some ppId, reposts := none },
         some { pp with reposts := some (l ++ [⟨md.articleId, m, s, h, 1⟩]) }) := by
  subst hh
  unfold classifyStep
  rw [if_pos rfl, if_pos hss, if_pos ⟨not_le.mpr hmse, horig⟩]
  unfold appendEv
  rw [hrep]
  rfl

theorem c1_witness :
    classifyStep ⟨"cand", none, true, none, some []⟩ 7 ⟨"orig", none, true, none, some []⟩ 5 1 0
      = (⟨"cand", none, false, some 7, none⟩,
         some ⟨"orig", none, true, none, some [⟨"cand", 5, 1, 0, 1⟩]⟩) := by
  have h := c1_repost_classification ⟨"cand", none, true, none, some []⟩
    ⟨"orig", none, true, none, some []⟩ 7 5 1 0 [] rfl (by norm_num) (by norm_num) rfl rfl
  exact h

/-- An upstream post as delivered by the scraper interface: its
ArticleId (the media bytes are consumed only through the Pipeline
oracle below). -/
structure UPost where
  articleId : String
deriving DecidableEq

/-- An upstream document container: StartPostId plus an ordered list of
posts. -/
structure UDoc where
  startPostId : String
  posts : List UPost
deriving DecidableEq

/-- One page of the paginated upstream response (data['documents']). -/
abbrev Page := List UDoc

/-- All posts of a document list, in scan order. -/
def docsPosts (ds : List UDoc) : List UPost := (ds.map (fun d => d.posts)).flatten

/-- The inner post scan of resume mode (lines 220-225): admit posts
until the last-seen ArticleId is met; on a match stop and report that
the boundary was found. -/
def scanPosts (lastId : String) : List UPost → List UPost × Bool
  | [] => ([], false)
  | p :: ps =>
    if p.articleId = lastId then ([], true)
    else
      let r := scanPosts lastId ps
      (p :: r.1, r.2)

/-- The document loop of resume mode (lines 213-225): a document whose
StartPostId matches the last-seen article, or any document reached after
the boundary was already found, sets the final flag and stops the page;
otherwise its posts are scanned in order.  Returns (admitted posts,
boundary-found flag, final flag). -/
def scanDocs (lastId : String) : Bool → List UDoc → List UPost × Bool × Bool
  | found, [] => ([], found, false)
  | found, d :: ds =>
    if d.startPostId = lastId ∨ found = true then ([], found, true)
    else
      let r := scanPosts lastId d.posts
      let rest := scanDocs lastId r.2 ds
      (r.1 ++ rest.1, rest.2.1, rest.2.2)

/-- Outcome of one corpus comparison (lines 245-256) for the current
candidate image: scaleNone models _scale_images returning (None, None),
which overwrites the candidate variable im with None for all later
corpus entries; guardSkip models a scaled pair whose truthiness guard
evaluated false (candidate reassigned to the returned array); scores
models a successful comparison producing the (mse, ssim, hash) triple,
again with the possibly-rescaled candidate image. -/
inductive PairOutcome (ι : Type) where
  | scaleNone
  | guardSkip (im : ι)
  | scores (im : ι) (m s : ℚ) (h : ℤ)

/-- Black-box oracle for the image pipeline of the corpus scan: decode
gives the candidate image of a post (line 230), pair performs
lines 245-256 against the stored record with the given id.  The pixel
layer above shows the guard in fact raises for multi-pixel arrays; this
oracle models the score-level control flow of lines 244-287. -/
structure Pipeline (ι : Type) where
  decode : UPost → ι
  pair : ι → ℕ → PairOutcome ι

/-- The persistent store: the Posts collection as (ObjectId, record)
pairs in insertion order, the id allocator, the OrderNum Counter
document, and the fields of the Runs record inserted at lines 146-151
(EndProcessTime, PostsProcessed, BatchesProcessed as persisted). -/
structure DB where
  posts : List (ℕ × Record)
  nextId : ℕ
  counter : ℕ
  runEnd : Option ℕ
  runPosts : ℕ
  runBatches : ℕ
deriving DecidableEq

/-- The in-process state of run(): the store plus the local variables
last_article_found, final_batch, posts_processed, batches_processed, and
a crashed marker recording that an uncaught exception aborted the run
(the db then holds exactly the mutations persisted before the raise). -/
structure St where
  db : DB
  found : Bool
  final : Bool
  postsP : ℕ
  batchesP : ℕ
  crashed : Bool
deriving DecidableEq

/-- Accumulator of the corpus scan for one candidate: the current
candidate image variable im (None after a non-comparable pair overwrote
it at line 248), the metadata draft md, the Posts collection as mutated
by replace_one calls, and a crashed marker: once im is None, the NEXT
iteration's _scale_images(None, im0) call evaluates image_one.shape at
line 77 and raises AttributeError, aborting the scan before any further
mutation. -/
structure DetectAcc (ι : Type) where
  im : Option ι
  md : Record
  posts : List (ℕ × Record)
  crashed : Bool

/-- replace_one by _id (line 275). -/
def replacePost (i : ℕ) (r : Record) (l : List (ℕ × Record)) : List (ℕ × Record) :=
  l.map (fun e => if e.1 = i then (i, r) else e)

/-- One iteration of the corpus scan (lines 244-287).  With a live
candidate image the pair oracle runs and the classification of
lines 263-284 is applied, persisting the mutated target via replace_one;
a non-comparable pair overwrites the candidate variable with None.  With
a None candidate the iteration raises AttributeError (None.shape at
line 77) before mutating anything: the crashed marker is set and, once
set, freezes the fold (the source loop is dead at that point). -/
def detectStep {ι : Type} (P : Pipeline ι) (acc : DetectAcc ι) (e : ℕ × Record) : DetectAcc ι :=
  match acc.crashed, acc.im with
  | true, _ => acc
  | false, none => { acc with crashed := true }
  | false, some im =>
    match P.pair im e.1 with
    | .scaleNone => { acc with im := none }
    | .guardSkip im2 => { acc with im := some im2 }
    | .scores im2 m s h =>
      match classifyStep acc.md e.1 e.2 m s h with
      | (md, none) => { acc with im := some im2, md := md }
      | (md, some pp) => { acc with im := some im2, md := md, posts := replacePost e.1 pp acc.posts }

/-- Admission of one post through the detection path (lines 227-287):
build the draft record, scan a snapshot of the whole Posts collection,
then insert the resulting draft at line 287.  If the scan crashed
(AttributeError from a poisoned candidate), the insert is never reached:
only the replace_one mutations made before the crash persist, and the
Boolean result reports the abort.  posts_processed is not incremented on
this path. -/
def admitOne {ι : Type} (P : Pipeline ι) (p : UPost) (db : DB) : DB × Bool :=
  let acc := db.posts.foldl (detectStep P)
    ⟨some (P.decode p), ⟨p.articleId, none, true, none, some []⟩, db.posts, false⟩
  match acc.crashed with
  | true => ({ db with posts := acc.posts }, true)
  | false => ({ db with posts := acc.posts ++ [(db.nextId, acc.md)], nextId := db.nextId + 1 }, false)

/-- The admission of the posts routed on one page (the inner post loop of
lines 220-287): posts are admitted in order; a crash aborts immediately,
so the posts after the crashing candidate are never processed.  Returns
the successfully admitted posts, the store, and the crash flag. -/
def admitSeq {ι : Type} (P : Pipeline ι) : List UPost → DB → List UPost × DB × Bool
  | [], db => ([], db, false)
  | p :: ps, db =>
    match admitOne P p db with
    | (db2, true) => ([], db2, true)
    | (db2, false) =>
      let r := admitSeq P ps db2
      (p :: r.1, r.2.1, r.2.2)

/-- Bulk admission of one post in save-all mode (lines 190-210): an
original record carrying the current Counter value as OrderNum, then the
Counter and posts_processed are incremented. -/
def bulkAdmit (p : UPost) (st : St) : St :=
  { st with
    db := { st.db with
      posts := st.db.posts ++ [(st.db.nextId, ⟨p.articleId, some st.db.counter, true, none, some []⟩)],
      nextId := st.db.nextId + 1,
      counter := st.db.counter + 1 },
    postsP := st.postsP + 1 }

/-- The pagination loop of run() (lines 159-292), one list element per
upstream response; the list end stands for the upstream returning an
empty page.  Returns the stream of posts successfully admitted together
with the final state.  An empty page breaks; a short page sets the final
flag before processing; a page whose documents all carry zero posts only
advances the offset and batches_processed; otherwise the save-all or the
resume branch runs, and the loop stops when the final flag is set.  A
crash during resume admission (uncaught AttributeError from a poisoned
candidate) aborts the whole run at once: the state is returned with the
crashed marker set and no later post or page is touched. -/
def pageLoop {ι : Type} (P : Pipeline ι) (last : Option String) (bs : ℕ) :
    List Page → St → List UPost × St
  | [], st => ([], st)
  | pg :: rest, st =>
    if pg.length = 0 then ([], st)
    else
      let st1 := if pg.length < bs then { st with final := true } else st
      let docs := pg.filter (fun d => !d.posts.isEmpty)
      if docs.isEmpty then
        pageLoop P last bs rest { st1 with batchesP := st1.batchesP + 1 }
      else
        match last with
        | none =>
          let ps := docsPosts docs
          let st2 := ps.foldl (fun s p => bulkAdmit p s) st1
          if st2.final then (ps, st2)
          else
            let r := pageLoop P none bs rest st2
            (ps ++ r.1, r.2)
        | some lastId =>
          let sc := scanDocs lastId st1.found docs
          let ad := admitSeq P sc.1 st1.db
          if ad.2.2 then (ad.1, { st1 with db := ad.2.1, crashed := true })
          else
            let st2 := { st1 with
              db := ad.2.1,
              found := sc.2.1,
              final := st1.final || sc.2.2 }
            if st2.final then (sc.1, st2)
            else
              let r := pageLoop P last bs rest st2
              (sc.1 ++ r.1, r.2)

/-- C6: a resume run that admits one post ("41") on its first page,
skips one filler page, and terminates by exhaustion.  The Runs record is
never finalized: EndProcessTime stays None and the persisted counters
stay 0; moreover the local batches_processed reaches only 1 (it is
incremented solely in the filler branch, line 185, though two pages were
iterated) and the local posts_processed stays 0 (the detection path
never increments it), while the trace shows one post was admitted. -/
theorem c6_run_not_finalized :
    (pageLoop (⟨fun _ => (), fun _ _ => .scaleNone⟩ : Pipeline Unit) (some "42") 1
        [[⟨"41", [⟨"41"⟩]⟩], [⟨"x", []⟩]]
        ⟨⟨[(0, ⟨"42", some 1, true, none, some []⟩)], 1, 2, none, 0, 0⟩,
          false, false, 0, 0, false⟩)
      = ([⟨"41"⟩],
         ⟨⟨[(0, ⟨"42", some 1, true, none, some []⟩), (1, ⟨"41", none, true, none, some []⟩)],
            2, 2, none, 0, 0⟩, false, false, 0, 1, false⟩) := by
  decide

/-- The records produced by a sequence of bulk admissions started at
Counter value c and ObjectId allocator n. -/
def bulkRecords : ℕ → ℕ → List UPost → List (ℕ × Record)
  | _, _, [] => []
  | c, n, p :: ps => (n, ⟨p.articleId, some c, true, none, some []⟩) :: bulkRecords (c + 1) (n + 1) ps

theorem bulkRecords_append (xs : List UPost) :
    ∀ (c n : ℕ) (ys : List UPost),
      bulkRecords c n (xs ++ ys)
        = bulkRecords c n xs ++ bulkRecords (c + xs.length) (n + xs.length) ys := by
  induction xs with
  | nil => intro c n ys; simp [bulkRecords]
  | cons p ps ih =>
    intro c n ys
    simp only [List.cons_append, bulkRecords, List.length_cons, List.append_eq]
    rw [ih (c + 1) (n + 1) ys]
    have hc : c + (ps.length + 1) = c + 1 + ps.length := by omega
    have hn : n + (ps.length + 1) = n + 1 + ps.length := by omega
    rw [hc, hn]

theorem bulkRecords_mem (ps : List UPost) :
    ∀ (c n : ℕ) (e : ℕ × Record), e ∈ bulkRecords c n ps →
      e.2.isOriginal = true ∧ e.2.repostOff = none ∧ e.2.reposts = some [] := by
  induction ps with
  | nil => intro c n e he; simp [bulkRecords] at he
  | cons p ps ih =>
    intro c n e he
    rcases (List.mem_cons).1 he with h | h
    · subst h; exact ⟨rfl, rfl, rfl⟩
    · exact ih (c + 1) (n + 1) e h

theorem bulkRecords_get? (ps : List UPost) :
    ∀ (c n k : ℕ) (e : ℕ × Record), (bulkRecords c n ps).get? k = some e →
      e.2.orderNum = some (c + k) ∧ e.2.isOriginal = true := by
  induction ps with
  | nil => intro c n k e he; simp [bulkRecords] at he
  | cons p ps ih =>
    intro c n k e he
    cases k with
    | zero =>
      simp only [bulkRecords, List.get?_cons_zero, Option.some.injEq] at he
      subst he
      exact ⟨rfl, rfl⟩
    | succ k =>
      simp only [bulkRecords, List.get?_cons_succ] at he
      have h := ih (c + 1) (n + 1) k e he
      refine ⟨?_, h.2⟩
      rw [h.1]
      congr 1
      omega

theorem bulk_foldl (ps : List UPost) :
    ∀ (st : St),
      ps.foldl (fun s p => bulkAdmit p s) st
        = { st with
            db := { st.db with
              posts := st.db.posts ++ bulkRecords st.db.counter st.db.nextId ps,
              nextId := st.db.nextId + ps.length,
              counter := st.db.counter + ps.length },
            postsP := st.postsP + ps.length } := by
  induction ps with
  | nil =>
    intro st
    cases st with
    | mk db found final postsP batchesP crashed => cases db; simp [bulkRecords]
  | cons p ps ih =>
    intro st
    rw [List.foldl_cons, ih (bulkAdmit p st)]
    cases st with
    | mk db found final postsP batchesP crashed =>
      cases db
      simp [bulkAdmit, bulkRecords, List.append_assoc]
      omega

/-- Characterization of a save-all run: the Posts collection is extended
by exactly the bulk records of the admitted trace, with the Counter and
the id allocator advanced by its length. -/
theorem pageLoop_none_posts {ι : Type} (P : Pipeline ι) (bs : ℕ) (pages : List Page) :
    ∀ (st : St),
      ((pageLoop P none bs pages st).2).db.posts
          = st.db.posts ++ bulkRecords st.db.counter st.db.nextId (pageLoop P none bs pages st).1
        ∧ (pageLoop P none bs pages st).2.db.counter
          = st.db.counter + (pageLoop P none bs pages st).1.length
        ∧ (pageLoop P none bs pages st).2.db.nextId
          = st.db.nextId + (pageLoop P none bs pages st).1.length := by
  induction pages with
  | nil => intro st; simp [pageLoop, bulkRecords]
  | cons pg rest ih =>
    intro st
    obtain ⟨⟨dposts, dnext, dcount, drE, drP, drB⟩, fnd, fin, pp, bp, cr⟩ := st
    by_cases h0 : pg.length = 0
    · simp [pageLoop, h0, bulkRecords]
    by_cases hemp : (pg.filter (fun d => !d.posts.isEmpty)).isEmpty
    · by_cases hshort : pg.length < bs
      · simp only [pageLoop, if_neg h0, if_pos hshort, hemp, if_true]
        exact ih _
      · simp only [pageLoop, if_neg h0, if_neg hshort, hemp, if_true]
        exact ih _
    by_cases hshort : pg.length < bs
    · simp only [pageLoop, if_neg h0, if_pos hshort, hemp, Bool.false_eq_true, if_false]
      rw [bulk_foldl]
      simp only [if_true]
      exact ⟨trivial, trivial, trivial⟩
    · simp only [pageLoop, if_neg h0, if_neg hshort, hemp, Bool.false_eq_true, if_false]
      rw [bulk_foldl]
      by_cases hf : fin = true
      · simp only [hf, if_true]
        exact ⟨trivial, trivial, trivial⟩
      · simp only [hf, Bool.false_eq_true, if_false]
        refine ⟨?_, ?_, ?_⟩
        · rw [(ih _).1]
          simp only [List.append_assoc, bulkRecords_append]
        · rw [(ih _).2.1]
          simp only [List.length_append]
          omega
        · rw [(ih _).2.2]
          simp only [List.length_append]
          omega

/-- C3: a run that starts with an empty Posts collection operates in
save-all mode: every stored record is an original, the OrderNum values
(allocated from the Counter, initialized to 1) are strictly increasing
in admission order, and for the concrete empty-store run over three
incoming posts the stored OrderNum values are 1, 2, 3. -/
theorem c3_save_all {ι : Type} (P : Pipeline ι) (bs : ℕ) (pages : List Page) (st0 : St)
    (hposts : st0.db.posts = []) (hcounter : st0.db.counter = 1) :
    (∀ e ∈ (pageLoop P none bs pages st0).2.db.posts, e.2.isOriginal = true)
    ∧ (∀ (i : ℕ) (ei : ℕ × Record),
        (pageLoop P none bs pages st0).2.db.posts.get? i = some ei →
        ei.2.orderNum = some (1 + i))
    ∧ (pageLoop (⟨fun _ => (), fun _ _ => .scaleNone⟩ : Pipeline Unit) none 5
        [[⟨"d", [⟨"1"⟩, ⟨"2"⟩, ⟨"3"⟩]⟩]]
        ⟨⟨[], 0, 1, none, 0, 0⟩, false, false, 0, 0, false⟩).2.db.posts.map (fun e => e.2.orderNum)
      = [some 1, some 2, some 3] := by
  have hchar := (pageLoop_none_posts P bs pages st0).1
  rw [hposts, hcounter, List.nil_append] at hchar
  refine ⟨?_, ?_, by decide⟩
  · intro e he
    rw [hchar] at he
    exact (bulkRecords_mem _ _ _ _ he).1
  · intro i ei hi
    rw [hchar] at hi
    exact (bulkRecords_get? _ _ _ _ _ hi).1

theorem c3_witness :
    ((0 : ℕ), (⟨"1", some 1, true, none, some []⟩ : Record)).2.orderNum = some (1 + 0) :=
  (c3_save_all (⟨fun _ => (), fun _ _ => .scaleNone⟩ : Pipeline Unit) 5
      [[⟨"d", [⟨"1"⟩, ⟨"2"⟩, ⟨"3"⟩]⟩]] ⟨⟨[], 0, 1, none, 0, 0⟩, false, false, 0, 0, false⟩
      rfl rfl).2.1
    0 _ (by decide)

/-- The exclusivity invariant of C9: an original record carries no
repost link and does carry a Reposts list; a repost record carries a
repost link and a None Reposts value. -/
def recInv (r : Record) : Prop :=
  (r.isOriginal = true → r.repostOff = none ∧ r.reposts ≠ none)
  ∧ (r.isOriginal = false → r.repostOff ≠ none ∧ r.reposts = none)

theorem classifyStep_inv (md pp : Record) (ppId : ℕ) (m s : ℚ) (h : ℤ)
    (hmd : recInv md) (hpp : recInv pp) :
    recInv (classifyStep md ppId pp m s h).1
    ∧ ∀ q, (classifyStep md ppId pp m s h).2 = some q → recInv q := by
  unfold classifyStep
  split
  case isFalse => exact ⟨hmd, fun q hq => by simp at hq⟩
  split
  case isFalse => exact ⟨hmd, fun q hq => by simp at hq⟩
  split
  case isFalse => exact ⟨hmd, fun q hq => by simp at hq⟩
  case isTrue hcond =>
    constructor
    · constructor
      · intro hx
        simp at hx
      · intro hx
        exact ⟨by simp, rfl⟩
    · intro q hq
      simp only [Option.some.injEq] at hq
      subst hq
      have horig : pp.isOriginal = true := hcond.2
      have hfields := hpp.1 horig
      constructor
      · intro hx
        refine ⟨?_, ?_⟩
        · exact hfields.1
        · unfold appendEv
          rcases hrep : pp.reposts with _ | l
          · exact absurd hrep hfields.2
          · simp
      · intro hx
        unfold appendEv at hx
        simp only at hx
        rw [horig] at hx
        cases hx

theorem replacePost_inv (i : ℕ) (q : Record) (l : List (ℕ × Record))
    (hl : ∀ x ∈ l, recInv x.2) (hq : recInv q) :
    ∀ x ∈ replacePost i q l, recInv x.2 := by
  intro x hx
  unfold replacePost at hx
  rcases List.mem_map.1 hx with ⟨y, hy, hxy⟩
  by_cases hcase : y.1 = i
  · rw [if_pos hcase] at hxy
    rw [← hxy]
    exact hq
  · rw [if_neg hcase] at hxy
    rw [← hxy]
    exact hl y hy

theorem detectStep_inv {ι : Type} (P : Pipeline ι) (acc : DetectAcc ι) (e : ℕ × Record)
    (hmd : recInv acc.md) (hposts : ∀ x ∈ acc.posts, recInv x.2) (he : recInv e.2) :
    recInv (detectStep P acc e).md ∧ ∀ x ∈ (detectStep P acc e).posts, recInv x.2 := by
  obtain ⟨imo, md, posts, cr⟩ := acc
  cases cr with
  | true => exact ⟨hmd, hposts⟩
  | false =>
    cases imo with
    | none => exact ⟨hmd, hposts⟩
    | some im =>
      rcases hp : P.pair im e.1 with _ | im2 | ⟨im2, m, s, h⟩
      · simp only [detectStep, hp]
        exact ⟨hmd, hposts⟩
      · simp only [detectStep, hp]
        exact ⟨hmd, hposts⟩
      · have hinv := classifyStep_inv md e.2 e.1 m s h hmd he
        rcases hc : classifyStep md e.1 e.2 m s h with ⟨md2, ppR⟩
        rw [hc] at hinv
        cases ppR with
        | none =>
          simp only [detectStep, hp, hc]
          exact ⟨hinv.1, hposts⟩
        | some q =>
          simp only [detectStep, hp, hc]
          exact ⟨hinv.1, replacePost_inv e.1 q posts hposts (hinv.2 q rfl)⟩

theorem detect_foldl_inv {ι : Type} (P : Pipeline ι) (snap : List (ℕ × Record)) :
    ∀ (acc : DetectAcc ι), recInv acc.md → (∀ x ∈ acc.posts, recInv x.2) →
      (∀ x ∈ snap, recInv x.2) →
      recInv (snap.foldl (detectStep P) acc).md
      ∧ ∀ x ∈ (snap.foldl (detectStep P) acc).posts, recInv x.2 := by
  induction snap with
  | nil => intro acc h1 h2 _; exact ⟨h1, h2⟩
  | cons e t ih =>
    intro acc h1 h2 h3
    rw [List.foldl_cons]
    have hstep := detectStep_inv P acc e h1 h2 (h3 e (List.mem_cons_self e t))
    exact ih (detectStep P acc e) hstep.1 hstep.2 (fun x hx => h3 x (List.mem_cons_of_mem e hx))

theorem admitOne_inv {ι : Type} (P : Pipeline ι) (p : UPost) (db : DB)
    (h : ∀ x ∈ db.posts, recInv x.2) :
    ∀ x ∈ (admitOne P p db).1.posts, recInv x.2 := by
  intro x hx
  have hmd0 : recInv (⟨p.articleId, none, true, none, some []⟩ : Record) := by
    constructor
    · intro _
      exact ⟨rfl, by simp⟩
    · intro hfalse
      simp at hfalse
  have hfold := detect_foldl_inv P db.posts
    ⟨some (P.decode p), ⟨p.articleId, none, true, none, some []⟩, db.posts, false⟩ hmd0 h h
  simp only [admitOne] at hx
  cases hcr : (db.posts.foldl (detectStep P)
      ⟨some (P.decode p), ⟨p.articleId, none, true, none, some []⟩, db.posts, false⟩).crashed with
  | true =>
    rw [hcr] at hx
    exact hfold.2 x hx
  | false =>
    rw [hcr] at hx
    rcases List.mem_append.1 hx with hleft | hright
    · exact hfold.2 x hleft
    · rcases List.mem_singleton.1 hright with rfl
      exact hfold.1

theorem admitSeq_inv {ι : Type} (P : Pipeline ι) (ps : List UPost) :
    ∀ (db : DB), (∀ x ∈ db.posts, recInv x.2) →
      ∀ x ∈ (admitSeq P ps db).2.1.posts, recInv x.2 := by
  induction ps with
  | nil => intro db h; exact h
  | cons p t ih =>
    intro db h
    rcases hone : admitOne P p db with ⟨db2, c⟩
    have h2 : ∀ x ∈ db2.posts, recInv x.2 := by
      have hx := admitOne_inv P p db h
      rw [hone] at hx
      exact hx
    cases c with
    | true =>
      simp only [admitSeq, hone]
      exact h2
    | false =>
      simp only [admitSeq, hone]
      exact ih db2 h2

theorem bulk_foldl_inv (ps : List UPost) (st : St)
    (h : ∀ x ∈ st.db.posts, recInv x.2) :
    ∀ x ∈ (ps.foldl (fun s p => bulkAdmit p s) st).db.posts, recInv x.2 := by
  intro x hx
  rw [bulk_foldl] at hx
  rcases List.mem_append.1 hx with hleft | hright
  · exact h x hleft
  · obtain ⟨h1, h2, h3⟩ := bulkRecords_mem _ _ _ _ hright
    constructor
    · intro _
      refine ⟨h2, ?_⟩
      rw [h3]
      simp
    · intro hfalse
      rw [h1] at hfalse
      cases hfalse

theorem ite_posts_inv (c : Prop) [inst : Decidable c] (a b : List UPost × St)
    (ha : ∀ e ∈ a.2.db.posts, recInv e.2) (hb : ∀ e ∈ b.2.db.posts, recInv e.2) :
    ∀ e ∈ (if c then a else b).2.db.posts, recInv e.2 := by
  by_cases h : c
  · rw [if_pos h]
    exact ha
  · rw [if_neg h]
    exact hb

/-- C9: the exclusivity invariant holds for every record ever persisted
by run(): if every record in the initial Posts collection satisfies it
(originals carry no RepostOff and a Reposts list, reposts carry a
RepostOff and a None Reposts), then after a run - bulk admissions,
detection admissions and the evidence-append mutation at lines 267-275
included - every stored record still satisfies it. -/
theorem c9_invariant {ι : Type} (P : Pipeline ι) (last : Option String) (bs : ℕ)
    (pages : List Page) :
    ∀ (st : St), (∀ e ∈ st.db.posts, recInv e.2) →
      ∀ e ∈ (pageLoop P last bs pages st).2.db.posts, recInv e.2 := by
  induction pages with
  | nil => intro st h; simpa [pageLoop] using h
  | cons pg rest ih =>
    intro st hinv
    obtain ⟨⟨dposts, dnext, dcount, drE, drP, drB⟩, fnd, fin, pp, bp, cr⟩ := st
    by_cases h0 : pg.length = 0
    · simpa [pageLoop, h0] using hinv
    by_cases hemp : (pg.filter (fun d => !d.posts.isEmpty)).isEmpty
    · by_cases hshort : pg.length < bs
      · simp only [pageLoop, if_neg h0, if_pos hshort, hemp, if_true]
        exact ih _ hinv
      · simp only [pageLoop, if_neg h0, if_neg hshort, hemp, if_true]
        exact ih _ hinv
    by_cases hshort : pg.length < bs
    · simp only [pageLoop, if_neg h0, if_pos hshort, hemp, Bool.false_eq_true, if_false]
      cases last with
      | none =>
        apply ite_posts_inv
        · apply bulk_foldl_inv
          exact hinv
        · apply ih
          apply bulk_foldl_inv
          exact hinv
      | some lastId =>
        apply ite_posts_inv
        · apply admitSeq_inv
          exact hinv
        · apply ite_posts_inv
          · apply admitSeq_inv
            exact hinv
          · apply ih
            apply admitSeq_inv
            exact hinv
    · simp only [pageLoop, if_neg h0, if_neg hshort, hemp, Bool.false_eq_true, if_false]
      cases last with
      | none =>
        apply ite_posts_inv
        · apply bulk_foldl_inv
          exact hinv
        · apply ih
          apply bulk_foldl_inv
          exact hinv
      | some lastId =>
        apply ite_posts_inv
        · apply admitSeq_inv
          exact hinv
        · apply ite_posts_inv
          · apply admitSeq_inv
            exact hinv
          · apply ih
            apply admitSeq_inv
            exact hinv

theorem c9_witness :
    recInv (⟨"1", some 1, true, none, some []⟩ : Record) :=
  c9_invariant (⟨fun _ => (), fun _ _ => .scaleNone⟩ : Pipeline Unit) none 5
    [[⟨"d", [⟨"1"⟩, ⟨"2"⟩, ⟨"3"⟩]⟩]] ⟨⟨[], 0, 1, none, 0, 0⟩, false, false, 0, 0, false⟩
    (by intro e he; simp at he)
    (0, ⟨"1", some 1, true, none, some []⟩) (by decide)

end ForumMediaAnalyzer
